import Mathlib

/-!
# Verification of the Aria Context Augmentation Engine

Shallow embedding of the RAG retrieval pipeline (`src/services/rag`:
`vectorMath.ts`, `RagService`, `ragFormatter.ts`) and the capability-card
guidance pipeline (`src/core/capabilities`: `detect.ts`, `format.ts`,
`index.ts`, and the budgeted `formatCardsForPrompt` revision).

Modelling conventions:
* JS numbers are modelled as exact rationals (`ℚ`); integer counters as `Nat`/`Int`.
* `Math.sqrt` is threaded as an explicit parameter `sqrt : ℚ → ℚ`, since the
  theorems only need its behaviour at `0` (`sqrt 0 = 0`).
* Fallible TS functions (those that `throw`) return `Except String α`.
* JS `String.prototype.includes` is modelled by an executable character-list
  substring test (`strIncludes`), proved equivalent to `List` infix (`<:+:`).
* JS `Array.prototype.sort` (stable since ES2019) is modelled by
  `List.mergeSort` with the comparator's induced boolean relation.
-/

namespace Aria

/-! ## String helpers -/

/-- Boolean test that `n` is a prefix of `h` (character lists). -/
def charsBegin : List Char → List Char → Bool
  | [], _ => true
  | _ :: _, [] => false
  | n :: ns, c :: cs => n == c && charsBegin ns cs

/-- Boolean substring test: does `n` occur contiguously inside `h`?
Models JS `String.prototype.includes` on the underlying character lists. -/
def charsIncl (n : List Char) : List Char → Bool
  | [] => charsBegin n []
  | c :: cs => charsBegin n (c :: cs) || charsIncl n cs

/-- JS `hay.includes(needle)`. -/
def strIncludes (hay needle : String) : Bool :=
  charsIncl needle.toList hay.toList

/-- JS `s.toLowerCase()` (ASCII case folding, which is all the registry
needs), written over the character list so that it evaluates by reduction. -/
def lowerStr (s : String) : String := ⟨s.data.map Char.toLower⟩

/-- JS `array.join("\n")`. -/
def joinLines : List String → String
  | [] => ""
  | [s] => s
  | s :: rest => s ++ "\n" ++ joinLines rest

/-! ## Vector math (`vectorMath.ts`) -/

/-- The dot-product loop of `cosineSimilarity` (after the length check). -/
def dotList (a b : List ℚ) : ℚ := (List.zipWith (· * ·) a b).sum

/-- The `normA`/`normB` accumulators: sum of squares of the entries. -/
def normSq (a : List ℚ) : ℚ := (a.map (fun x => x * x)).sum

/-- Function `cosineSimilarity` from `vectorMath.ts`, with `Math.sqrt` supplied as a
parameter. Throws on length mismatch; returns `0` when the magnitude product
is `0`; otherwise the normalized dot product. -/
def cosineSimilarity (sqrt : ℚ → ℚ) (a b : List ℚ) : Except String ℚ :=
  if a.length ≠ b.length then
    .error "Vector length mismatch"
  else
    let dot := dotList a b
    let magnitude := sqrt (normSq a) * sqrt (normSq b)
    if magnitude = 0 then .ok 0 else .ok (dot / magnitude)

/-! ## RAG data model (`types.ts`) -/

/-- Metadata of a parent chunk (the fields read by the formatter). -/
structure ChunkMetadata where
  source : Option String
  source_name : Option String
  page : Option Int
deriving DecidableEq

/-- Structure `RagParentChunk` from `types.ts`. -/
structure RagParentChunk where
  id : String
  content : String
  metadata : ChunkMetadata
deriving DecidableEq

/-- Structure `RagChildChunk` from `types.ts` (metadata unused by the verified paths). -/
structure RagChildChunk where
  id : String
  text : String
  parent_id : String
  embedding : List ℚ
deriving DecidableEq

/-- Structure `RagSearchResult` from `types.ts`. -/
structure RagSearchResult where
  parentChunk : RagParentChunk
  matchedChildChunk : RagChildChunk
  score : ℚ
deriving DecidableEq

/-- An entry of the intermediate `childMatches` array in `RagService.search`. -/
structure ChildMatch where
  child : RagChildChunk
  score : ℚ
deriving DecidableEq

/-- Structure `RagServiceConfig` (with the defaults already resolved). -/
structure RagSearchConfig where
  topK : Nat
  minScore : ℚ
deriving DecidableEq

/-- The `RagIndex` file format (version 2, parent-child hierarchy). -/
structure RagIndexFile where
  version : Int
  embedding_model : String
  chunking_strategy : String
  parent_chunks : List RagParentChunk
  child_chunks : List RagChildChunk
deriving DecidableEq

/-! ## `RagService` (part of `src/services/rag`) -/

/-- The `parentChunkMap` built in `initialize`: a JS `Map` keyed by `parent.id`,
where a later `set` for the same id overwrites an earlier one.  Lookup therefore
finds the last parent in the list carrying the requested id. -/
def buildParentMap (parents : List RagParentChunk) (key : String) : Option RagParentChunk :=
  parents.reverse.find? (fun p => p.id == key)

/-- The scoring loop of `search`: for each child compute the cosine similarity
against the query embedding and keep the child iff `score >= minScore`.  A
length-mismatch exception in `cosineSimilarity` propagates out of the loop. -/
def computeMatches (sqrt : ℚ → ℚ) (q : List ℚ) (minScore : ℚ) :
    List RagChildChunk → Except String (List ChildMatch)
  | [] => .ok []
  | c :: rest => do
    let s ← cosineSimilarity sqrt q c.embedding
    let tail ← computeMatches sqrt q minScore rest
    if minScore ≤ s then pure (⟨c, s⟩ :: tail) else pure tail

/-- The dedup-and-truncate loop of `search`: walk the sorted matches, skip a
match whose parent was already emitted or cannot be found in the parent map,
otherwise emit a result; stop as soon as `topK` results have been collected
(the JS loop `break`s after the push that reaches `topK`). -/
def dedupTake (lookup : String → Option RagParentChunk) (topK : Nat) :
    List ChildMatch → List String → List RagSearchResult → List RagSearchResult
  | [], _, acc => acc.reverse
  | m :: rest, seen, acc =>
    if seen.contains m.child.parent_id then
      dedupTake lookup topK rest seen acc
    else
      match lookup m.child.parent_id with
      | none => dedupTake lookup topK rest seen acc
      | some p =>
        let acc' := ⟨p, m.child, m.score⟩ :: acc
        if topK ≤ acc'.length then acc'.reverse
        else dedupTake lookup topK rest (m.child.parent_id :: seen) acc'

/-- The comparator `(a, b) => b.score - a.score` of the stable JS sort, as the
boolean relation "`a` may stay before `b`". -/
def scoreDesc (a b : ChildMatch) : Bool := decide (b.score ≤ a.score)

/-- The pure ranking core of `RagService.search`, starting from the query
embedding returned by `embedQuery`: score every child chunk, filter by
`minScore`, sort descending by score (stable), deduplicate by `parent_id`
against `parentChunkMap`, and truncate to `topK`. -/
def searchRank (sqrt : ℚ → ℚ) (queryEmbedding : List ℚ)
    (parents : List RagParentChunk) (children : List RagChildChunk)
    (cfg : RagSearchConfig) : Except String (List RagSearchResult) := do
  let ms ← computeMatches sqrt queryEmbedding cfg.minScore children
  let sorted := ms.mergeSort scoreDesc
  pure (dedupTake (buildParentMap parents) cfg.topK sorted [] [])

/-- The observable first action of `RagService.search` before any network
activity: the guard on the loaded index, the guard on the API key, and then the
`fetch` issued by `embedQuery` (carrying the model identifier and the raw query
text).  JS string falsiness: `!geminiApiKey` is true exactly for `""`. -/
inductive SearchFirstAction where
  | throwErr (msg : String)
  | httpPost (model : String) (text : String)
deriving DecidableEq

/-- Guards of `search` followed by the request `embedQuery` sends. -/
def searchFirstAction (indexLoaded : Bool) (geminiApiKey : String) (query : String) :
    SearchFirstAction :=
  if !indexLoaded then
    .throwErr "RAG index not loaded. Call initialize() first."
  else if geminiApiKey = "" then
    .throwErr "Gemini API key is required for RAG search"
  else
    .httpPost "models/text-embedding-004" query

/-- Outcome of `RagService.initialize` on a fresh (not yet loaded, not
currently loading) service. -/
inductive InitOutcome where
  | failure (msg : String)
  | success (orphanCount : Nat) (inconsistentCount : Nat)
deriving DecidableEq

/-- Method `RagService.initialize`, modelled from the point where the file has been
located and parsed: `fileExists` abstracts the `fs.existsSync` probes, `idx`
the parsed JSON.  Version and non-emptiness checks throw; orphaned children
and inconsistent embedding dimensions are merely counted (logged). -/
def initializeOutcome (fileExists : Bool) (idx : RagIndexFile) : InitOutcome :=
  if !fileExists then
    .failure "RAG index not found"
  else if idx.version ≠ 2 then
    .failure "Unsupported RAG index version"
  else if idx.parent_chunks.isEmpty then
    .failure "RAG index has no parent chunks"
  else
    match idx.child_chunks with
    | [] => .failure "RAG index has no child chunks"
    | c0 :: _ =>
      let orphans := idx.child_chunks.countP
        (fun c => (buildParentMap idx.parent_chunks c.parent_id).isNone)
      let inconsistent := idx.child_chunks.countP
        (fun c => c.embedding.length ≠ c0.embedding.length)
      .success orphans inconsistent

/-! ## `ragFormatter.ts` -/

/-- JS `a || b` on a possibly-absent string: falls through on `undefined`
and on the falsy empty string. -/
def jsStrOr (a : Option String) (b : String) : String :=
  match a with
  | some s => if s = "" then b else s
  | none => b

/-- The citation name: `metadata.source_name || metadata.source || "Unknown Source"`. -/
def citationName (m : ChunkMetadata) : String :=
  jsStrOr m.source_name (jsStrOr m.source "Unknown Source")

/-- The page suffix: `metadata.page ? \x60 (Page ${page})\x60 : ""` (note that the
number `0` is falsy in JS). -/
def pageSuffix (m : ChunkMetadata) : String :=
  match m.page with
  | some p => if p = 0 then "" else " (Page " ++ toString p ++ ")"
  | none => ""

/-- The three lines one result contributes to the `sections` array. -/
def referenceSection (i : Nat) (r : RagSearchResult) : List String :=
  ["--- Reference " ++ toString (i + 1) ++ ": " ++ citationName r.parentChunk.metadata
      ++ pageSuffix r.parentChunk.metadata ++ " ---",
    r.parentChunk.content.trim,
    ""]

/-- The numbered reference sections for all results (the `for` loop). -/
def referenceSections (i : Nat) : List RagSearchResult → List String
  | [] => []
  | r :: rest => referenceSection i r ++ referenceSections (i + 1) rest

/-- The fixed header lines pushed before the loop. -/
def ragHeaderLines : List String :=
  ["ACTUARIAL REFERENCE CONTEXT",
    "The following excerpts from actuarial literature (textbooks, ASOP, etc.) may be relevant to the user's question:",
    ""]

/-- The fixed footer lines pushed after the loop. -/
def ragFooterLines : List String :=
  ["--- End of Actuarial Reference Context ---",
    "",
    "Use the above context to inform your response when relevant. Cite specific sources when referencing this information. If the context is not relevant to the user's question, you may ignore it."]

/-- Function `formatRagContext` from `ragFormatter.ts`: the empty string for an empty
result list, otherwise the header, the numbered sections, and the footer,
joined with newlines.  (The TS signature returns `string`; there is no
`undefined` branch.) -/
def formatRagContext (results : List RagSearchResult) : String :=
  if results.length = 0 then ""
  else joinLines (ragHeaderLines ++ referenceSections 0 results ++ ragFooterLines)

/-! ## Capability cards (`src/core/capabilities`) -/

/-- A trigger clause of `CapabilityCard.triggers` (the `kind` tagged union).
The source field named `none` is rendered here as `noneOf`. -/
inductive CardTrigger where
  | keyword (any : List String) (all : Option (List String)) (noneOf : Option (List String))
  | regex (pattern : String) (flags : Option String)
deriving DecidableEq

/-- Structure `CapabilityCard` from `card_registry.ts`.  The repository carries two
revisions of the registry type — one with a single `content` rendering and one
with `short`/`long` renderings plus `CARD_BUDGET_TOKENS`; this structure holds
the union of their fields, and each embedded function reads exactly the fields
its own source revision reads. -/
structure CapabilityCard where
  id : String
  version : String
  title : String
  triggers : List CardTrigger
  importance : Option Int
  content : String
  short : String
  long : String
  sources : Option (List String)
deriving DecidableEq

/-- Structure `Detection` from `detect.ts`. -/
structure Detection where
  card : CapabilityCard
  signals : List String
  score : Int
deriving DecidableEq

/-- The matching window of `detectCards`:
`userTurns.slice(-3).join("\n").toLowerCase()`. -/
def dialogueWindow (userTurns : List String) : String :=
  lowerStr (joinLines (userTurns.drop (userTurns.length - 3)))

/-- The keyword-clause test of `detectCards`:
`anyHit && allHit && !noneHit`, each term lowercased before the
`text.includes` substring test, with absent `all`/`none` read as `[]`. -/
def keywordClauseMatches (text : String) (any : List String)
    (all : Option (List String)) (noneOf : Option (List String)) : Bool :=
  let anyHit := any.any (fun k => strIncludes text (lowerStr k))
  let allHit := (all.getD []).all (fun k => strIncludes text (lowerStr k))
  let noneHit := (noneOf.getD []).any (fun k => strIncludes text (lowerStr k))
  anyHit && allHit && !noneHit

/-- One trigger clause of the inner loop of `detectCards`: whether it matches
and the signals it pushes.  `new RegExp(pattern, flags).test(text)` is beyond a
shallow embedding, so the regex engine is an explicit oracle parameter. -/
def clauseEval (regexTest : String → Option String → String → Bool)
    (text : String) : CardTrigger → Bool × List String
  | .keyword any all noneOf =>
    if keywordClauseMatches text any all noneOf then
      (true, any.filter (fun k => strIncludes text (lowerStr k)))
    else (false, [])
  | .regex pattern flags =>
    if regexTest pattern flags text then (true, ["regex:" ++ pattern]) else (false, [])

/-- The full trigger loop for one card: `matched` is the OR over clauses and
`signals` the concatenation of what each matching clause pushed. -/
def cardEval (regexTest : String → Option String → String → Bool)
    (text : String) (card : CapabilityCard) : Bool × List String :=
  card.triggers.foldl
    (fun acc trig =>
      let r := clauseEval regexTest text trig
      (acc.1 || r.1, acc.2 ++ r.2))
    (false, [])

/-- The unsorted `hits` array of `detectCards`: matched cards in registry
order, scored `(card.importance ?? 3) + Math.min(2, signals.length)`. -/
def detectHits (regexTest : String → Option String → String → Bool)
    (text : String) (registry : List CapabilityCard) : List Detection :=
  registry.filterMap (fun card =>
    let r := cardEval regexTest text card
    if r.1 then some ⟨card, r.2, card.importance.getD 3 + min 2 (r.2.length : Int)⟩
    else none)

/-- The comparator `(a, b) => b.score - a.score` of the final stable sort. -/
def detScoreDesc (a b : Detection) : Bool := decide (b.score ≤ a.score)

/-- Function `detectCards` from `detect.ts`. -/
def detectCards (regexTest : String → Option String → String → Bool)
    (userTurns : List String) (registry : List CapabilityCard) : List Detection :=
  (detectHits regexTest (dialogueWindow userTurns) registry).mergeSort detScoreDesc

/-- The sources line `c.sources?.join("; ") ?? "—"`. -/
def sourcesLine (c : CapabilityCard) : String :=
  match c.sources with
  | some l => String.intercalate "; " l
  | none => "—"

/-- The card rendering of the current `format.ts` (single `content` field). -/
def cardBlockContent (c : CapabilityCard) : String :=
  "### Capability Card: " ++ c.title ++ " (v" ++ c.version ++ ")\n"
    ++ c.content ++ "\n\n_Sources_: " ++ sourcesLine c

/-- The preamble line of the current `format.ts`. -/
def cardsPreambleMandatory : String :=
  "You have contextual capability cards (mandatory technical guidance). When capability cards specify Python modules and function usage, you MUST use those exact imports and functions - this requirement overrides generic programming approaches. Capability cards with Python module specifications are non-negotiable implementation requirements."

/-- Function `formatCardsForPrompt` from the current `format.ts`: no budget parameter;
every card is rendered in full.  (`index.ts` passes a `tokenBudget` argument,
which this revision of the function simply does not declare.) -/
def formatCardsForPrompt (cards : List CapabilityCard) : String :=
  let blocks := cards.map cardBlockContent
  if blocks.isEmpty then ""
  else joinLines (["---", cardsPreambleMandatory] ++ blocks ++ ["---"])

/-! ### The budgeted `formatCardsForPrompt` revision -/

/-- Function `estimateTokens`, the proxy `Math.ceil(s.length / 4)`. -/
def estimateTokens (s : String) : Nat := (s.length + 3) / 4

/-- The full-detail rendering `c.long || c.short` of the budgeted revision. -/
def cardBlockLong (c : CapabilityCard) : String :=
  "### Capability Card: " ++ c.title ++ " (v" ++ c.version ++ ")\n"
    ++ (if c.long = "" then c.short else c.long) ++ "\n\n_Sources_: " ++ sourcesLine c

/-- The condensed rendering of the budgeted revision. -/
def cardBlockShort (c : CapabilityCard) : String :=
  "### Capability Card: " ++ c.title ++ " (v" ++ c.version ++ ")\n"
    ++ c.short ++ "\n\n_Sources_: " ++ sourcesLine c

/-- Constant `CARD_BUDGET_TOKENS` from `card_registry.ts`. -/
def CARD_BUDGET_TOKENS : Nat := 800

/-- The selection loop of the budgeted `formatCardsForPrompt`: include the full
rendering while it fits (`used + cost > budget` rejects), otherwise fall back
to the short rendering if that fits, otherwise skip the card. -/
def selectBlocks (budget : Nat) : List CapabilityCard → Nat → List String
  | [], _ => []
  | c :: rest, used =>
    let cost := estimateTokens (cardBlockLong c)
    if budget < used + cost then
      let shortCost := estimateTokens (cardBlockShort c)
      if budget < used + shortCost then selectBlocks budget rest used
      else cardBlockShort c :: selectBlocks budget rest (used + shortCost)
    else cardBlockLong c :: selectBlocks budget rest (used + cost)

/-- The preamble line of the budgeted revision. -/
def cardsPreambleQuickRef : String :=
  "You have contextual capability cards (quick reference). Use them to increase accuracy; they do not override system instructions."

/-- The budgeted `formatCardsForPrompt` revision (`estimateTokens`-greedy). -/
def formatCardsForPromptBudget (cards : List CapabilityCard) (budget : Nat) : String :=
  let blocks := selectBlocks budget cards 0
  if blocks.isEmpty then ""
  else joinLines (["---", cardsPreambleQuickRef] ++ blocks ++ ["---"])

/-! ### `index.ts` -/

/-- Structure `CapabilityCardResult` from `index.ts`. -/
structure CapabilityCardResult where
  cardsFound : Bool
  cardIds : List String
  signals : List String
  cardsBlock : String
deriving DecidableEq

/-- Function `getRelevantCapabilityCards` from `index.ts` (the registry constant
`CARD_REGISTRY` abstracted as a parameter, the regex engine as an oracle).
The `tokenBudget` argument it forwards is not declared by the current
`format.ts` and is therefore dropped. -/
def getRelevantCapabilityCards (regexTest : String → Option String → String → Bool)
    (registry : List CapabilityCard) (userMessages : List String) : CapabilityCardResult :=
  let detections := detectCards regexTest userMessages registry
  let selected := detections.map (·.card)
  let cardsBlock := formatCardsForPrompt selected
  { cardsFound := decide (0 < selected.length)
    cardIds := selected.map (·.id)
    signals := (detections.map (·.signals)).flatten
    cardsBlock := cardsBlock }

/-! ## Concrete fixtures (used to instantiate theorems on explicit inputs) -/

/-- A sample parent chunk. -/
def parentA : RagParentChunk :=
  ⟨"p1", "  Parent content about chain ladder.  ",
    ⟨some "werner_modlin.pdf", some "Basic Ratemaking", some 12⟩⟩

/-- A sample child chunk of `parentA` with a one-dimensional embedding. -/
def childA : RagChildChunk := ⟨"c1", "chain ladder", "p1", [1]⟩

/-- A child chunk whose `parent_id` resolves to no parent (an orphan). -/
def childOrphan : RagChildChunk := ⟨"c2", "orphan text", "missing-parent", [1]⟩

/-- The search result produced for `childA` by a query embedding `[1]`. -/
def resultA : RagSearchResult := ⟨parentA, childA, 1⟩

/-- A square-root stand-in agreeing with the real square root on the inputs
the fixtures produce (`0` and `1`). -/
def sqrtOneZero : ℚ → ℚ := fun x => if x = 1 then 1 else 0

/-- A version-2 index file with one parent and one orphaned child. -/
def idxW : RagIndexFile :=
  ⟨2, "text-embedding-004", "parent-child", [parentA], [childOrphan, childA]⟩

/-- A capability card with a three-term keyword trigger and importance 4. -/
def cardX : CapabilityCard :=
  { id := "card-x", version := "1.0.0", title := "X",
    triggers := [.keyword ["alpha", "beta", "gamma"] none none],
    importance := some 4, content := "body", short := "s", long := "l",
    sources := none }

/-- A capability card triggered by the keyword `"chainladder"`. -/
def cardY : CapabilityCard :=
  { id := "card-y", version := "1.0.0", title := "Y",
    triggers := [.keyword ["chainladder"] none none],
    importance := none, content := "body", short := "s", long := "l",
    sources := none }

/-- A regex oracle that matches nothing (the fixtures only use keyword rules). -/
def noRegex : String → Option String → String → Bool := fun _ _ _ => false

/-! ## Basic lemmas about the helpers -/

theorem charsBegin_iff (n h : List Char) : charsBegin n h = true ↔ n <+: h := by
  induction n generalizing h with
  | nil => simp [charsBegin]
  | cons a ns ih =>
    cases h with
    | nil => simp [charsBegin]
    | cons c cs =>
      simp [charsBegin, List.cons_prefix_cons, ih, Bool.and_eq_true, beq_iff_eq]

theorem charsIncl_iff (n h : List Char) : charsIncl n h = true ↔ n <:+: h := by
  induction h with
  | nil =>
    simp [charsIncl, charsBegin_iff, List.prefix_nil, List.infix_nil]
  | cons c cs ih =>
    simp [charsIncl, Bool.or_eq_true, charsBegin_iff, ih, List.infix_cons_iff]

theorem strIncludes_iff (hay needle : String) :
    strIncludes hay needle = true ↔ needle.toList <:+: hay.toList :=
  charsIncl_iff _ _

theorem buildParentMap_id {parents : List RagParentChunk} {key : String}
    {p : RagParentChunk} (h : buildParentMap parents key = some p) : p.id = key := by
  have := List.find?_some h
  simpa [beq_iff_eq] using this

/-! ## C3 — `cosineSimilarity` on zero-magnitude vectors -/

/-- C3: for equal-length vectors one of which has zero magnitude (zero sum of
squares), `cosineSimilarity` returns exactly `0` — a defined value, not an
exception — and it fails if and only if the lengths mismatch.  `sqrt 0 = 0` is
the only fact about `Math.sqrt` the guard needs. -/
theorem cosineSimilarity_zero_mag (sqrt : ℚ → ℚ) (a b : List ℚ) (hs : sqrt 0 = 0) :
    (a.length = b.length → normSq a = 0 ∨ normSq b = 0 →
      cosineSimilarity sqrt a b = .ok 0)
    ∧ ((cosineSimilarity sqrt a b).isOk = true ↔ a.length = b.length) := by
  constructor
  · intro hlen hz
    rcases hz with h | h <;> simp [cosineSimilarity, hlen, h, hs]
  · by_cases hlen : a.length = b.length
    · simp only [cosineSimilarity, hlen, ne_eq, not_true_eq_false, if_false,
        iff_true]
      split <;> rfl
    · simp [cosineSimilarity, hlen, Except.isOk, Except.toBool]

/-- C3 witness: the zero vector against itself. -/
theorem cosineSimilarity_zero_mag_witness :
    cosineSimilarity (fun _ => 0) [0, 0] [0, 0] = .ok 0 :=
  (cosineSimilarity_zero_mag (fun _ => 0) [0, 0] [0, 0] rfl).1 rfl
    (Or.inl (by norm_num [normSq]))

/-! ## C5 — guards of `search` before the embedding call -/

/-- C5 counterexample: with the index loaded and a credential present but an
EMPTY query text, `search` does not throw — its first observable action is the
HTTP embedding request carrying the empty text.  (Only the credential is
guarded; empty text is never checked.) -/
theorem searchFirstAction_emptyText_counterexample :
    searchFirstAction true "some-key" "" =
      SearchFirstAction.httpPost "models/text-embedding-004" "" := by
  decide

/-- C5 (amended): an absent (empty) credential makes `search` throw before any
HTTP request is attempted; empty query text is not validated. -/
theorem searchFirstAction_missing_credential (indexLoaded : Bool) (query : String)
    (geminiApiKey : String) (hk : geminiApiKey = "") :
    ∃ msg, searchFirstAction indexLoaded geminiApiKey query =
      SearchFirstAction.throwErr msg := by
  cases indexLoaded <;> simp [searchFirstAction, hk]

/-- C5 witness: loaded index, empty credential. -/
theorem searchFirstAction_missing_credential_witness :
    ∃ msg, searchFirstAction true "" "hello" = SearchFirstAction.throwErr msg :=
  searchFirstAction_missing_credential true "hello" "" rfl

/-! ## C8 — `initialize` failure conditions -/

/-- C8: `initialize` fails exactly when the file is missing, the version is not
2, or either chunk array is empty; on success the orphan count is exactly the
number of children whose `parent_id` resolves to no parent (orphans are
counted, never fatal). -/
theorem initializeOutcome_spec (fe : Bool) (idx : RagIndexFile) :
    ((∃ m, initializeOutcome fe idx = .failure m) ↔
      (fe = false ∨ idx.version ≠ 2 ∨ idx.parent_chunks = [] ∨ idx.child_chunks = []))
    ∧ (∀ oc ic, initializeOutcome fe idx = .success oc ic →
        oc = idx.child_chunks.countP
          (fun c => (buildParentMap idx.parent_chunks c.parent_id).isNone)) := by
  rcases hc : idx.child_chunks with _ | ⟨c0, cs⟩ <;>
    cases fe <;>
    by_cases hv : idx.version = 2 <;>
    by_cases hp : idx.parent_chunks = [] <;>
    simp_all [initializeOutcome, List.isEmpty_iff]

/-- C8 witness: a valid version-2 index with one orphaned child initializes
successfully, and the reported orphan count is the number of orphans (1). -/
theorem initializeOutcome_spec_witness :
    (1 : Nat) = idxW.child_chunks.countP
      (fun c => (buildParentMap idxW.parent_chunks c.parent_id).isNone) :=
  (initializeOutcome_spec true idxW).2 1 0 (by decide)

/-! ## Helper lemmas about `joinLines` and string lengths -/

theorem str_append_ne {a : String} (b : String) (h : 0 < a.length) : a ++ b ≠ "" := by
  intro he
  have hlen : (a ++ b).length = 0 := by rw [he]; rfl
  rw [String.length_append] at hlen
  omega

theorem joinLines_append (ls ms : List String) (hl : ls ≠ []) (hm : ms ≠ []) :
    joinLines (ls ++ ms) = joinLines ls ++ "\n" ++ joinLines ms := by
  induction ls with
  | nil => exact absurd rfl hl
  | cons s ls' ih =>
    cases ls' with
    | nil =>
      rcases ms with _ | ⟨m, ms'⟩
      · exact absurd rfl hm
      · simp [joinLines]
    | cons s2 ls'' =>
      have step : joinLines (s :: s2 :: ls'' ++ ms) =
          s ++ "\n" ++ joinLines (s2 :: ls'' ++ ms) := by
        rcases hsplit : s2 :: ls'' ++ ms with _ | ⟨y, ys⟩
        · simp at hsplit
        · rw [← hsplit]
          rcases ls'' ++ ms with _ | _ <;> simp_all [joinLines]
      calc joinLines ((s :: s2 :: ls'') ++ ms)
          = s ++ "\n" ++ joinLines (s2 :: ls'' ++ ms) := by
            simpa using step
        _ = s ++ "\n" ++ (joinLines (s2 :: ls'') ++ "\n" ++ joinLines ms) := by
            rw [ih (by simp)]
        _ = joinLines (s :: s2 :: ls'') ++ "\n" ++ joinLines ms := by
            simp [joinLines, String.append_assoc]

theorem joinLines_head_ne {x : String} (l : List String) (hx : 0 < x.length) :
    joinLines (x :: l) ≠ "" := by
  cases l with
  | nil =>
    intro he
    rw [show joinLines [x] = x from rfl] at he
    rw [he] at hx
    exact absurd hx (by decide)
  | cons y ys =>
    rw [show joinLines (x :: y :: ys) = x ++ "\n" ++ joinLines (y :: ys) from rfl,
      String.append_assoc]
    exact str_append_ne _ hx

/-! ## C6 — `formatRagContext` on the empty and non-empty result lists -/

/-- C6 counterexample: on the empty result list the formatter returns the
empty STRING — its TS return type is `string` and it has no `undefined`
branch, so the claimed `undefined` "no context" signal is never produced. -/
theorem formatRagContext_empty_counterexample : formatRagContext [] = "" := rfl

/-- C6 (amended): the formatter returns `""` for the empty result list, and
for every non-empty result list it returns the fixed header, one numbered
section per result (source/page citation plus the parent's trimmed content),
and the fixed footer, newline-joined — in particular a non-empty string. -/
theorem formatRagContext_spec :
    formatRagContext [] = ""
    ∧ ∀ (r : RagSearchResult) (rs : List RagSearchResult),
        formatRagContext (r :: rs) =
          joinLines ragHeaderLines ++ "\n"
            ++ joinLines (referenceSections 0 (r :: rs)) ++ "\n"
            ++ joinLines ragFooterLines
        ∧ formatRagContext (r :: rs) ≠ "" := by
  refine ⟨rfl, fun r rs => ?_⟩
  have hrs : referenceSections 0 (r :: rs) ≠ [] := by
    simp [referenceSections, referenceSection]
  have hstruct : formatRagContext (r :: rs) =
      joinLines ragHeaderLines ++ "\n"
        ++ joinLines (referenceSections 0 (r :: rs)) ++ "\n"
        ++ joinLines ragFooterLines := by
    show joinLines (ragHeaderLines ++ referenceSections 0 (r :: rs) ++ ragFooterLines) = _
    rw [joinLines_append (ragHeaderLines ++ referenceSections 0 (r :: rs)) ragFooterLines
        (by simp [ragHeaderLines]) (by simp [ragFooterLines]),
      joinLines_append ragHeaderLines (referenceSections 0 (r :: rs))
        (by simp [ragHeaderLines]) hrs]
  refine ⟨hstruct, ?_⟩
  rw [hstruct]
  have hh : 0 < (joinLines ragHeaderLines).length := by
    rw [show joinLines ragHeaderLines =
      "ACTUARIAL REFERENCE CONTEXT" ++ "\n" ++ joinLines (ragHeaderLines.drop 1) from rfl]
    rw [String.length_append, String.length_append]
    have h27 : 0 < ("ACTUARIAL REFERENCE CONTEXT" : String).length := by decide
    omega
  intro he
  have hlen := congrArg String.length he
  simp only [String.length_append] at hlen
  have : String.length "" = 0 := rfl
  omega

/-- C6 witness: a concrete one-result list formats to a non-empty block. -/
theorem formatRagContext_spec_witness : formatRagContext [resultA] ≠ "" :=
  (formatRagContext_spec.2 resultA []).2

/-! ## C2 — the budgeted guidance block never exceeds its budget -/

theorem estimateTokens_pos {s : String} (h : 0 < s.length) : 1 ≤ estimateTokens s := by
  unfold estimateTokens
  omega

theorem cardBlockLong_len_pos (c : CapabilityCard) : 0 < (cardBlockLong c).length := by
  have h : ("### Capability Card: " : String).length = 21 := by decide
  simp only [cardBlockLong, String.length_append, h]
  omega

theorem cardBlockShort_len_pos (c : CapabilityCard) : 0 < (cardBlockShort c).length := by
  have h : ("### Capability Card: " : String).length = 21 := by decide
  simp only [cardBlockShort, String.length_append, h]
  omega

theorem selectBlocks_zero (cards : List CapabilityCard) :
    ∀ used, selectBlocks 0 cards used = [] := by
  induction cards with
  | nil => intro used; rfl
  | cons c rest ih =>
    intro used
    have h1 : (0 : Nat) < used + estimateTokens (cardBlockLong c) := by
      have := estimateTokens_pos (cardBlockLong_len_pos c); omega
    have h2 : (0 : Nat) < used + estimateTokens (cardBlockShort c) := by
      have := estimateTokens_pos (cardBlockShort_len_pos c); omega
    simp [selectBlocks, h1, h2, ih]

theorem selectBlocks_cost (budget : Nat) (cards : List CapabilityCard) :
    ∀ used, used ≤ budget →
      used + ((selectBlocks budget cards used).map estimateTokens).sum ≤ budget := by
  induction cards with
  | nil => intro used hu; simpa [selectBlocks]
  | cons c rest ih =>
    intro used hu
    by_cases h1 : budget < used + estimateTokens (cardBlockLong c)
    · by_cases h2 : budget < used + estimateTokens (cardBlockShort c)
      · simpa [selectBlocks, h1, h2] using ih used hu
      · have h2' : used + estimateTokens (cardBlockShort c) ≤ budget := Nat.not_lt.mp h2
        have hrec := ih (used + estimateTokens (cardBlockShort c)) h2'
        simp only [selectBlocks, if_pos h1, if_neg h2, List.map_cons, List.sum_cons]
        omega
    · have h1' : used + estimateTokens (cardBlockLong c) ≤ budget := Nat.not_lt.mp h1
      have hrec := ih (used + estimateTokens (cardBlockLong c)) h1'
      simp only [selectBlocks, if_neg h1, List.map_cons, List.sum_cons]
      omega

/-- C2: the budgeted `formatCardsForPrompt` (a) includes card renderings whose
total estimated token cost (`ceil(chars/4)` summed over the included
renderings) never exceeds the budget, (b) produces the empty block at budget
0, and (c) per item: keep the full rendering when it fits the remaining
budget, otherwise fall back to the short rendering when that fits, otherwise
skip the item. -/
theorem formatCardsForPromptBudget_spec :
    (∀ (cards : List CapabilityCard) (budget : Nat),
      ((selectBlocks budget cards 0).map estimateTokens).sum ≤ budget)
    ∧ (∀ cards : List CapabilityCard, formatCardsForPromptBudget cards 0 = "")
    ∧ (∀ (budget : Nat) (c : CapabilityCard) (rest : List CapabilityCard) (used : Nat),
        selectBlocks budget (c :: rest) used =
          if budget < used + estimateTokens (cardBlockLong c) then
            if budget < used + estimateTokens (cardBlockShort c) then
              selectBlocks budget rest used
            else
              cardBlockShort c :: selectBlocks budget rest (used + estimateTokens (cardBlockShort c))
          else
            cardBlockLong c :: selectBlocks budget rest (used + estimateTokens (cardBlockLong c))) := by
  refine ⟨fun cards budget => ?_, fun cards => ?_, fun budget c rest used => rfl⟩
  · simpa using selectBlocks_cost budget cards 0 (Nat.zero_le _)
  · simp [formatCardsForPromptBudget, selectBlocks_zero]

/-! ## C10 — internal consistency of `getRelevantCapabilityCards` -/

theorem formatCardsForPrompt_ne_empty (cards : List CapabilityCard) (h : cards ≠ []) :
    formatCardsForPrompt cards ≠ "" := by
  rcases cards with _ | ⟨c, cs⟩
  · exact absurd rfl h
  · show joinLines (["---", cardsPreambleMandatory]
      ++ (c :: cs).map cardBlockContent ++ ["---"]) ≠ ""
    exact joinLines_head_ne _ (by decide)

theorem detectCards_eq_nil_iff (regexTest : String → Option String → String → Bool)
    (userTurns : List String) (registry : List CapabilityCard) :
    detectCards regexTest userTurns registry = [] ↔
      ∀ card ∈ registry,
        (cardEval regexTest (dialogueWindow userTurns) card).1 = false := by
  unfold detectCards detectHits
  rw [← List.length_eq_zero, List.length_mergeSort, List.length_eq_zero,
    List.filterMap_eq_nil_iff]
  refine forall_congr' fun card => ?_
  constructor
  · intro h hm
    have := h hm
    by_cases hb : (cardEval regexTest (dialogueWindow userTurns) card).1 = true
    · simp [hb] at this
    · simpa using hb
  · intro h hm
    simp [h hm]

/-- C10: `cardsFound` is `true` exactly when `cardIds` is non-empty, exactly
when some registry rule matched the window, and exactly when `cardsBlock` is a
non-empty string. -/
theorem getRelevantCapabilityCards_consistent
    (regexTest : String → Option String → String → Bool)
    (registry : List CapabilityCard) (userMessages : List String) :
    ((getRelevantCapabilityCards regexTest registry userMessages).cardsFound = true ↔
      (getRelevantCapabilityCards regexTest registry userMessages).cardIds ≠ [])
    ∧ ((getRelevantCapabilityCards regexTest registry userMessages).cardsFound = true ↔
      ∃ card ∈ registry,
        (cardEval regexTest (dialogueWindow userMessages) card).1 = true)
    ∧ ((getRelevantCapabilityCards regexTest registry userMessages).cardsFound = true ↔
      (getRelevantCapabilityCards regexTest registry userMessages).cardsBlock ≠ "") := by
  have hnil := detectCards_eq_nil_iff regexTest userMessages registry
  rcases hD : detectCards regexTest userMessages registry with _ | ⟨d, ds⟩
  · have hall := hnil.mp hD
    refine ⟨?_, ?_, ?_⟩
    · simp [getRelevantCapabilityCards, hD]
    · simp only [getRelevantCapabilityCards, hD]
      simp only [List.map_nil, List.length_nil, decide_eq_true_eq]
      constructor
      · omega
      · rintro ⟨card, hm, hc⟩
        rw [hall card hm] at hc
        exact Bool.noConfusion hc
    · simp [getRelevantCapabilityCards, hD, formatCardsForPrompt]
  · have hmatch : ∃ card ∈ registry,
        (cardEval regexTest (dialogueWindow userMessages) card).1 = true := by
      by_contra hno
      push_neg at hno
      have : ∀ card ∈ registry,
          (cardEval regexTest (dialogueWindow userMessages) card).1 = false := by
        intro card hm
        simpa using hno card hm
      rw [hnil.mpr this] at hD
      exact List.noConfusion hD
    have hblock : formatCardsForPrompt ((d :: ds).map (·.card)) ≠ "" :=
      formatCardsForPrompt_ne_empty _ (by simp)
    refine ⟨?_, ?_, ?_⟩ <;>
      simp [getRelevantCapabilityCards, hD]
    · exact hmatch
    · simpa [getRelevantCapabilityCards, hD] using hblock

/-! ## C4 — keyword trigger clause semantics -/

/-- C4 counterexample: the clause `{any:["EPV"]}` (an uppercase term, as the
real registry uses) matches the window built from the turn `"EPV"`, yet the
literal term `"EPV"` does NOT occur as a substring of that lowercased window —
so "matches exactly when a term of `any` occurs in the window" fails as
stated: the code also lowercases each term before the substring test. -/
theorem keywordClause_literal_counterexample :
    keywordClauseMatches (dialogueWindow ["EPV"]) ["EPV"] none none = true
    ∧ ¬ ("EPV".toList <:+: (dialogueWindow ["EPV"]).toList) := by
  constructor
  · decide
  · decide

/-- C4 (amended): a keyword clause matches exactly when some LOWERCASED `any`
term is a substring of the lowercased window of the last ≤ 3 turns, every
lowercased `all` term (when present) also is, and no lowercased `none` term
(when present) is; in particular `{any:["triangle"]}` matches a window
containing "Triangle", and a present `none` term forces a non-match. -/
theorem keywordClause_semantics :
    (∀ (turns any : List String) (all noneOf : Option (List String)),
      keywordClauseMatches (dialogueWindow turns) any all noneOf = true ↔
        ((∃ k ∈ any, (lowerStr k).toList <:+: (dialogueWindow turns).toList)
          ∧ (∀ k ∈ all.getD [], (lowerStr k).toList <:+: (dialogueWindow turns).toList)
          ∧ (∀ k ∈ noneOf.getD [],
              ¬ (lowerStr k).toList <:+: (dialogueWindow turns).toList)))
    ∧ keywordClauseMatches (dialogueWindow ["I have a Triangle here"])
        ["triangle"] none none = true
    ∧ keywordClauseMatches (dialogueWindow ["I have a Triangle here, exclude it"])
        ["triangle"] none (some ["exclude"]) = false := by
  refine ⟨fun turns any all noneOf => ?_, by decide, by decide⟩
  simp [keywordClauseMatches, List.any_eq_true, List.all_eq_true,
    strIncludes_iff, Bool.and_eq_true, Bool.not_eq_true']
  tauto

/-- C4 witness: the Triangle instance, via the general semantics theorem. -/
theorem keywordClause_semantics_witness :
    keywordClauseMatches (dialogueWindow ["I have a Triangle here"])
      ["triangle"] none none = true :=
  keywordClause_semantics.2.1

/-! ## C9 — detection scoring and ordering -/

/-- C9 counterexample: a card with importance 4 and three keyword signals gets
score `4 + min(2, 3) = 6`, not `importance + signal count = 7`: the signal
contribution is capped at 2. -/
theorem detectCards_score_cap_counterexample :
    detectCards noRegex ["alpha beta gamma"] [cardX]
      = [⟨cardX, ["alpha", "beta", "gamma"], 6⟩]
    ∧ (6 : Int) ≠ cardX.importance.getD 3 + 3 := by
  constructor
  · show (detectHits noRegex (dialogueWindow ["alpha beta gamma"]) [cardX]).mergeSort
      detScoreDesc = _
    rw [show detectHits noRegex (dialogueWindow ["alpha beta gamma"]) [cardX]
        = [⟨cardX, ["alpha", "beta", "gamma"], 6⟩] from by decide]
    exact List.mergeSort_of_sorted (List.pairwise_singleton _ _)
  · decide

theorem detScoreDesc_trans (a b c : Detection) :
    detScoreDesc a b → detScoreDesc b c → detScoreDesc a c := by
  simp only [detScoreDesc, decide_eq_true_eq]
  omega

theorem detScoreDesc_total (a b : Detection) : detScoreDesc a b || detScoreDesc b a := by
  simp only [detScoreDesc, Bool.or_eq_true, decide_eq_true_eq]
  omega

/-- C9 (amended): every detection's score is its card's static importance
(default 3) plus its signal count CAPPED AT 2; the output is ordered
score-descending, is a permutation of the matched-cards list (in registry
order), and ties keep input order (every equal-score group of the unsorted
hits survives as a sublist of the output). -/
theorem detectCards_rank_spec (regexTest : String → Option String → String → Bool)
    (turns : List String) (registry : List CapabilityCard) :
    (∀ d ∈ detectCards regexTest turns registry,
      d.score = d.card.importance.getD 3 + min 2 (d.signals.length : Int))
    ∧ (detectCards regexTest turns registry).Pairwise (fun a b => b.score ≤ a.score)
    ∧ (detectCards regexTest turns registry).Perm
        (detectHits regexTest (dialogueWindow turns) registry)
    ∧ ∀ s : Int,
        List.Sublist
          ((detectHits regexTest (dialogueWindow turns) registry).filter
            (fun d => d.score == s))
          (detectCards regexTest turns registry) := by
  refine ⟨?_, ?_, List.mergeSort_perm _ _, fun s => ?_⟩
  · intro d hd
    have hd' : d ∈ detectHits regexTest (dialogueWindow turns) registry :=
      List.mem_mergeSort.mp hd
    obtain ⟨card, _, heq⟩ := List.mem_filterMap.mp hd'
    simp only [detectHits] at heq
    split at heq
    · cases heq
      rfl
    · exact Option.noConfusion heq
  · have hs := List.sorted_mergeSort detScoreDesc_trans detScoreDesc_total
      (detectHits regexTest (dialogueWindow turns) registry)
    exact hs.imp (fun h => by simpa [detScoreDesc] using h)
  · apply List.sublist_mergeSort detScoreDesc_trans detScoreDesc_total
    · apply List.pairwise_of_forall_mem_list
      intro a ha b hb
      have ha' := (List.mem_filter.mp ha).2
      have hb' := (List.mem_filter.mp hb).2
      simp only [beq_iff_eq] at ha' hb'
      simp [detScoreDesc, ha', hb']
    · exact List.filter_sublist _

/-- C9 witness: on a concrete registry the output is a permutation of the
hits list. -/
theorem detectCards_rank_spec_witness :
    (detectCards noRegex ["build a chainladder"] [cardY]).Perm
      (detectHits noRegex (dialogueWindow ["build a chainladder"]) [cardY]) :=
  (detectCards_rank_spec noRegex ["build a chainladder"] [cardY]).2.2.1

/-! ## Lemmas about the dedup-and-truncate loop of `search` -/

theorem scoreDesc_trans (a b c : ChildMatch) :
    scoreDesc a b → scoreDesc b c → scoreDesc a c := by
  simp only [scoreDesc, decide_eq_true_eq]
  intro h1 h2
  exact le_trans h2 h1

theorem scoreDesc_total (a b : ChildMatch) : scoreDesc a b || scoreDesc b a := by
  simp only [scoreDesc, Bool.or_eq_true, decide_eq_true_eq]
  exact le_total _ _

theorem dedupTake_pairwise_aux (lookup : String → Option RagParentChunk)
    (hlook : ∀ k p, lookup k = some p → p.id = k) (topK : Nat) :
    ∀ (ms : List ChildMatch) (seen : List String) (acc : List RagSearchResult),
      (∀ r ∈ acc, r.parentChunk.id ∈ seen) →
      acc.Pairwise (fun r₁ r₂ => r₁.parentChunk.id ≠ r₂.parentChunk.id) →
      (dedupTake lookup topK ms seen acc).Pairwise
        (fun r₁ r₂ => r₁.parentChunk.id ≠ r₂.parentChunk.id) := by
  intro ms
  induction ms with
  | nil =>
    intro seen acc _ hpw
    rw [show dedupTake lookup topK [] seen acc = acc.reverse from rfl,
      List.pairwise_reverse]
    exact hpw.imp (fun h => h.symm)
  | cons m rest ih =>
    intro seen acc hacc hpw
    by_cases hseen : m.child.parent_id ∈ seen
    · rw [show dedupTake lookup topK (m :: rest) seen acc
        = dedupTake lookup topK rest seen acc from by simp [dedupTake, hseen]]
      exact ih seen acc hacc hpw
    · cases hl : lookup m.child.parent_id with
      | none =>
        rw [show dedupTake lookup topK (m :: rest) seen acc
          = dedupTake lookup topK rest seen acc from by simp [dedupTake, hseen, hl]]
        exact ih seen acc hacc hpw
      | some p =>
        have hpid : p.id = m.child.parent_id := hlook _ _ hl
        have hnew : ∀ r ∈ acc,
            (⟨p, m.child, m.score⟩ : RagSearchResult).parentChunk.id ≠ r.parentChunk.id := by
          intro r hr heq
          exact hseen (by rw [← hpid]; exact heq ▸ hacc r hr)
        have hpw' : ((⟨p, m.child, m.score⟩ : RagSearchResult) :: acc).Pairwise
            (fun r₁ r₂ => r₁.parentChunk.id ≠ r₂.parentChunk.id) :=
          List.pairwise_cons.mpr ⟨hnew, hpw⟩
        by_cases htop : topK ≤ acc.length + 1
        · rw [show dedupTake lookup topK (m :: rest) seen acc
            = ((⟨p, m.child, m.score⟩ : RagSearchResult) :: acc).reverse from by
              simp [dedupTake, hseen, hl, htop]]
          rw [List.pairwise_reverse]
          exact hpw'.imp (fun h => h.symm)
        · rw [show dedupTake lookup topK (m :: rest) seen acc
            = dedupTake lookup topK rest (m.child.parent_id :: seen)
                ((⟨p, m.child, m.score⟩ : RagSearchResult) :: acc) from by
              simp [dedupTake, hseen, hl, htop]]
          refine ih _ _ ?_ hpw'
          intro r hr
          rcases List.mem_cons.mp hr with hr | hr
          · rw [hr]
            exact hpid ▸ List.mem_cons_self _ _
          · exact List.mem_cons_of_mem _ (hacc r hr)

theorem dedupTake_length_le (lookup : String → Option RagParentChunk) (topK : Nat) :
    ∀ (ms : List ChildMatch) (seen : List String) (acc : List RagSearchResult),
      acc.length < topK → (dedupTake lookup topK ms seen acc).length ≤ topK := by
  intro ms
  induction ms with
  | nil =>
    intro seen acc hlt
    rw [show dedupTake lookup topK [] seen acc = acc.reverse from rfl]
    simpa using Nat.le_of_lt hlt
  | cons m rest ih =>
    intro seen acc hlt
    by_cases hseen : m.child.parent_id ∈ seen
    · rw [show dedupTake lookup topK (m :: rest) seen acc
        = dedupTake lookup topK rest seen acc from by simp [dedupTake, hseen]]
      exact ih seen acc hlt
    · cases hl : lookup m.child.parent_id with
      | none =>
        rw [show dedupTake lookup topK (m :: rest) seen acc
          = dedupTake lookup topK rest seen acc from by simp [dedupTake, hseen, hl]]
        exact ih seen acc hlt
      | some p =>
        by_cases htop : topK ≤ acc.length + 1
        · rw [show dedupTake lookup topK (m :: rest) seen acc
            = ((⟨p, m.child, m.score⟩ : RagSearchResult) :: acc).reverse from by
              simp [dedupTake, hseen, hl, htop]]
          simp only [List.length_reverse, List.length_cons]
          omega
        · rw [show dedupTake lookup topK (m :: rest) seen acc
            = dedupTake lookup topK rest (m.child.parent_id :: seen)
                ((⟨p, m.child, m.score⟩ : RagSearchResult) :: acc) from by
              simp [dedupTake, hseen, hl, htop]]
          refine ih _ _ ?_
          simp only [List.length_cons]
          omega

theorem dedupTake_mem_src (lookup : String → Option RagParentChunk) (topK : Nat) :
    ∀ (ms : List ChildMatch) (seen : List String) (acc : List RagSearchResult)
      (r : RagSearchResult), r ∈ dedupTake lookup topK ms seen acc →
      r ∈ acc ∨ ∃ m ∈ ms, lookup m.child.parent_id = some r.parentChunk
        ∧ r.matchedChildChunk = m.child ∧ r.score = m.score := by
  intro ms
  induction ms with
  | nil =>
    intro seen acc r hr
    exact Or.inl (List.mem_reverse.mp hr)
  | cons m rest ih =>
    intro seen acc r hr
    by_cases hseen : m.child.parent_id ∈ seen
    · rw [show dedupTake lookup topK (m :: rest) seen acc
        = dedupTake lookup topK rest seen acc from by simp [dedupTake, hseen]] at hr
      rcases ih seen acc r hr with h | ⟨m', hm', hrest⟩
      · exact Or.inl h
      · exact Or.inr ⟨m', List.mem_cons_of_mem _ hm', hrest⟩
    · cases hl : lookup m.child.parent_id with
      | none =>
        rw [show dedupTake lookup topK (m :: rest) seen acc
          = dedupTake lookup topK rest seen acc from by simp [dedupTake, hseen, hl]] at hr
        rcases ih seen acc r hr with h | ⟨m', hm', hrest⟩
        · exact Or.inl h
        · exact Or.inr ⟨m', List.mem_cons_of_mem _ hm', hrest⟩
      | some p =>
        by_cases htop : topK ≤ acc.length + 1
        · rw [show dedupTake lookup topK (m :: rest) seen acc
            = ((⟨p, m.child, m.score⟩ : RagSearchResult) :: acc).reverse from by
              simp [dedupTake, hseen, hl, htop]] at hr
          rcases List.mem_cons.mp (List.mem_reverse.mp hr) with h | h
          · exact Or.inr ⟨m, List.mem_cons_self _ _, by rw [h]; exact ⟨hl, rfl, rfl⟩⟩
          · exact Or.inl h
        · rw [show dedupTake lookup topK (m :: rest) seen acc
            = dedupTake lookup topK rest (m.child.parent_id :: seen)
                ((⟨p, m.child, m.score⟩ : RagSearchResult) :: acc) from by
              simp [dedupTake, hseen, hl, htop]] at hr
          rcases ih _ _ r hr with h | ⟨m', hm', hrest⟩
          · rcases List.mem_cons.mp h with h | h
            · exact Or.inr ⟨m, List.mem_cons_self _ _, by rw [h]; exact ⟨hl, rfl, rfl⟩⟩
            · exact Or.inl h
          · exact Or.inr ⟨m', List.mem_cons_of_mem _ hm', hrest⟩

theorem dedupTake_new_unseen (lookup : String → Option RagParentChunk)
    (hlook : ∀ k p, lookup k = some p → p.id = k) (topK : Nat) :
    ∀ (ms : List ChildMatch) (seen : List String) (acc : List RagSearchResult)
      (r : RagSearchResult), r ∈ dedupTake lookup topK ms seen acc →
      r ∈ acc ∨ r.parentChunk.id ∉ seen := by
  intro ms
  induction ms with
  | nil =>
    intro seen acc r hr
    exact Or.inl (List.mem_reverse.mp hr)
  | cons m rest ih =>
    intro seen acc r hr
    by_cases hseen : m.child.parent_id ∈ seen
    · rw [show dedupTake lookup topK (m :: rest) seen acc
        = dedupTake lookup topK rest seen acc from by simp [dedupTake, hseen]] at hr
      exact ih seen acc r hr
    · cases hl : lookup m.child.parent_id with
      | none =>
        rw [show dedupTake lookup topK (m :: rest) seen acc
          = dedupTake lookup topK rest seen acc from by simp [dedupTake, hseen, hl]] at hr
        exact ih seen acc r hr
      | some p =>
        have hpid : p.id = m.child.parent_id := hlook _ _ hl
        by_cases htop : topK ≤ acc.length + 1
        · rw [show dedupTake lookup topK (m :: rest) seen acc
            = ((⟨p, m.child, m.score⟩ : RagSearchResult) :: acc).reverse from by
              simp [dedupTake, hseen, hl, htop]] at hr
          rcases List.mem_cons.mp (List.mem_reverse.mp hr) with h | h
          · subst h
            exact Or.inr (by simpa [hpid] using hseen)
          · exact Or.inl h
        · rw [show dedupTake lookup topK (m :: rest) seen acc
            = dedupTake lookup topK rest (m.child.parent_id :: seen)
                ((⟨p, m.child, m.score⟩ : RagSearchResult) :: acc) from by
              simp [dedupTake, hseen, hl, htop]] at hr
          rcases ih _ _ r hr with h | h
          · rcases List.mem_cons.mp h with h | h
            · subst h
              exact Or.inr (by simpa [hpid] using hseen)
            · exact Or.inl h
          · exact Or.inr fun hmem => h (List.mem_cons_of_mem _ hmem)

theorem computeMatches_scores (sqrt : ℚ → ℚ) (q : List ℚ) (minScore : ℚ) :
    ∀ (children : List RagChildChunk) (ms : List ChildMatch),
      computeMatches sqrt q minScore children = .ok ms →
      ∀ m ∈ ms, minScore ≤ m.score := by
  intro children
  induction children with
  | nil =>
    intro ms h m hm
    cases h
    cases hm
  | cons c rest ih =>
    intro ms h m hm
    cases hcs : cosineSimilarity sqrt q c.embedding with
    | error e => simp [computeMatches, hcs, Bind.bind, Except.bind] at h
    | ok s =>
      cases hrest : computeMatches sqrt q minScore rest with
      | error e => simp [computeMatches, hcs, hrest, Bind.bind, Except.bind] at h
      | ok tail =>
        by_cases hge : minScore ≤ s
        · have hms : ms = ⟨c, s⟩ :: tail := by
            simpa [computeMatches, hcs, hrest, hge, Bind.bind, Except.bind,
              pure, Except.pure] using h.symm
          subst hms
          rcases List.mem_cons.mp hm with hm | hm
          · rw [hm]
            exact hge
          · exact ih _ hrest m hm
        · have hms : ms = tail := by
            simpa [computeMatches, hcs, hrest, hge, Bind.bind, Except.bind,
              pure, Except.pure] using h.symm
          subst hms
          exact ih _ hrest m hm

theorem dedupTake_max (lookup : String → Option RagParentChunk)
    (hlook : ∀ k p, lookup k = some p → p.id = k) (topK : Nat) :
    ∀ (ms : List ChildMatch) (seen : List String) (acc : List RagSearchResult),
      ms.Pairwise (fun a b => b.score ≤ a.score) →
      (∀ r ∈ acc, ∀ m ∈ ms, m.child.parent_id = r.parentChunk.id → m.score ≤ r.score) →
      ∀ r ∈ dedupTake lookup topK ms seen acc, ∀ m ∈ ms,
        m.child.parent_id = r.parentChunk.id → m.score ≤ r.score := by
  intro ms
  induction ms with
  | nil =>
    intro seen acc _ _ r _ m hm
    cases hm
  | cons m0 rest ih =>
    intro seen acc hpw hacc r hr m hm
    obtain ⟨hhead, hrest_pw⟩ := List.pairwise_cons.mp hpw
    by_cases hseen : m0.child.parent_id ∈ seen
    · rw [show dedupTake lookup topK (m0 :: rest) seen acc
        = dedupTake lookup topK rest seen acc from by simp [dedupTake, hseen]] at hr
      rcases List.mem_cons.mp hm with hm | hm
      · subst hm
        intro heq
        rcases dedupTake_new_unseen lookup hlook topK rest seen acc r hr with hracc | hnot
        · exact hacc r hracc m (List.mem_cons_self _ _) heq
        · exact absurd (heq ▸ hseen) hnot
      · exact ih seen acc hrest_pw
          (fun r' hr' m' hm' => hacc r' hr' m' (List.mem_cons_of_mem _ hm')) r hr m hm
    · cases hl : lookup m0.child.parent_id with
      | none =>
        rw [show dedupTake lookup topK (m0 :: rest) seen acc
          = dedupTake lookup topK rest seen acc from by simp [dedupTake, hseen, hl]] at hr
        rcases List.mem_cons.mp hm with hm | hm
        · subst hm
          intro heq
          rcases dedupTake_mem_src lookup topK rest seen acc r hr with
            hracc | ⟨m', hm', hlk', _, _⟩
          · exact hacc r hracc m (List.mem_cons_self _ _) heq
          · have hid : r.parentChunk.id = m'.child.parent_id := hlook _ _ hlk'
            have hnone : lookup m'.child.parent_id = none := by
              rw [← hid, ← heq]
              exact hl
            rw [hnone] at hlk'
            exact Option.noConfusion hlk'
        · exact ih seen acc hrest_pw
            (fun r' hr' m' hm' => hacc r' hr' m' (List.mem_cons_of_mem _ hm')) r hr m hm
      | some p =>
        have hpid : p.id = m0.child.parent_id := hlook _ _ hl
        by_cases htop : topK ≤ acc.length + 1
        · rw [show dedupTake lookup topK (m0 :: rest) seen acc
            = ((⟨p, m0.child, m0.score⟩ : RagSearchResult) :: acc).reverse from by
              simp [dedupTake, hseen, hl, htop]] at hr
          rcases List.mem_cons.mp (List.mem_reverse.mp hr) with hr' | hr'
          · subst hr'
            rcases List.mem_cons.mp hm with hm | hm
            · subst hm
              intro _
              exact le_refl _
            · intro _
              exact hhead m hm
          · exact hacc r hr' m hm
        · rw [show dedupTake lookup topK (m0 :: rest) seen acc
            = dedupTake lookup topK rest (m0.child.parent_id :: seen)
                ((⟨p, m0.child, m0.score⟩ : RagSearchResult) :: acc) from by
              simp [dedupTake, hseen, hl, htop]] at hr
          have hacc' : ∀ r' ∈ (⟨p, m0.child, m0.score⟩ : RagSearchResult) :: acc,
              ∀ m' ∈ rest, m'.child.parent_id = r'.parentChunk.id →
                m'.score ≤ r'.score := by
            intro r' hr' m' hm'
            rcases List.mem_cons.mp hr' with h | h
            · subst h
              intro _
              exact hhead m' hm'
            · exact fun he => hacc r' h m' (List.mem_cons_of_mem _ hm') he
          rcases List.mem_cons.mp hm with hm | hm
          · subst hm
            intro heq
            rcases dedupTake_new_unseen lookup hlook topK rest _ _ r hr with hrin | hnot
            · rcases List.mem_cons.mp hrin with h | h
              · subst h
                exact le_refl _
              · exact hacc r h m (List.mem_cons_self _ _) heq
            · exact absurd (heq ▸ List.mem_cons_self _ _) hnot
          · exact ih _ _ hrest_pw hacc' r hr m hm

theorem searchRank_eq (sqrt : ℚ → ℚ) (q : List ℚ) (parents : List RagParentChunk)
    (children : List RagChildChunk) (cfg : RagSearchConfig) (ms : List ChildMatch)
    (hm : computeMatches sqrt q cfg.minScore children = .ok ms) :
    searchRank sqrt q parents children cfg =
      .ok (dedupTake (buildParentMap parents) cfg.topK (ms.mergeSort scoreDesc) [] []) := by
  unfold searchRank
  rw [hm]
  rfl

/-! ## Concrete evaluation of the search fixtures -/

theorem cosineSimilarity_fixture : cosineSimilarity sqrtOneZero [1] [1] = .ok 1 := by
  have hd : dotList [1] [1] = 1 := by norm_num [dotList]
  have hn : normSq [1] = 1 := by norm_num [normSq]
  simp [cosineSimilarity, hd, hn, sqrtOneZero]

theorem computeMatches_fixture :
    computeMatches sqrtOneZero [1] (1 / 2 : ℚ) [childA] = .ok [⟨childA, 1⟩] := by
  have he : childA.embedding = [1] := rfl
  have hhalf : ((2 : ℚ)⁻¹ : ℚ) ≤ 1 := by norm_num
  simp [computeMatches, he, cosineSimilarity_fixture, hhalf,
    Bind.bind, Except.bind, pure, Except.pure]

theorem searchRank_fixture (topK : Nat) :
    searchRank sqrtOneZero [1] [parentA] [childA] ⟨topK, 1 / 2⟩ = .ok [resultA] := by
  rw [searchRank_eq sqrtOneZero [1] [parentA] [childA] ⟨topK, 1 / 2⟩ [⟨childA, 1⟩]
    computeMatches_fixture]
  rw [show ([⟨childA, 1⟩] : List ChildMatch).mergeSort scoreDesc = [⟨childA, 1⟩] from
    List.mergeSort_of_sorted (List.pairwise_singleton _ _)]
  by_cases htop : topK ≤ 1 <;>
    simp [dedupTake, buildParentMap, htop, parentA, childA, resultA]

/-! ## C1 — search results are deduplicated by parent -/

/-- C1: whenever the rank step of `search` succeeds, no two returned results
share a `parentChunk.id`; moreover the result kept for a parent scores at
least as high as every filtered child match of that parent (the first,
highest-scoring occurrence is the one kept). -/
theorem searchRank_dedup_by_parent (sqrt : ℚ → ℚ) (q : List ℚ)
    (parents : List RagParentChunk) (children : List RagChildChunk)
    (cfg : RagSearchConfig) (results : List RagSearchResult) (ms : List ChildMatch)
    (hm : computeMatches sqrt q cfg.minScore children = .ok ms)
    (h : searchRank sqrt q parents children cfg = .ok results) :
    results.Pairwise (fun r₁ r₂ => r₁.parentChunk.id ≠ r₂.parentChunk.id)
    ∧ ∀ r ∈ results, ∀ m ∈ ms,
        m.child.parent_id = r.parentChunk.id → m.score ≤ r.score := by
  have hlook : ∀ k p, buildParentMap parents k = some p → p.id = k :=
    fun k p hp => buildParentMap_id hp
  have hres : results
      = dedupTake (buildParentMap parents) cfg.topK (ms.mergeSort scoreDesc) [] [] := by
    rw [searchRank_eq sqrt q parents children cfg ms hm] at h
    exact (Except.ok.inj h).symm
  subst hres
  constructor
  · exact dedupTake_pairwise_aux _ hlook _ _ [] [] (by simp) List.Pairwise.nil
  · intro r hr m hmm heq
    have hsorted : (ms.mergeSort scoreDesc).Pairwise (fun a b => b.score ≤ a.score) :=
      (List.sorted_mergeSort scoreDesc_trans scoreDesc_total ms).imp
        (fun h => of_decide_eq_true h)
    exact dedupTake_max _ hlook _ _ [] [] hsorted (by simp) r hr m
      (List.mem_mergeSort.mpr hmm) heq

/-- C1 witness: the one-parent/one-child fixture search succeeds and its
result list is dedup-consistent. -/
theorem searchRank_dedup_by_parent_witness :
    ([resultA] : List RagSearchResult).Pairwise
      (fun r₁ r₂ => r₁.parentChunk.id ≠ r₂.parentChunk.id) :=
  (searchRank_dedup_by_parent sqrtOneZero [1] [parentA] [childA] ⟨5, 1 / 2⟩ [resultA]
    [⟨childA, 1⟩] computeMatches_fixture (searchRank_fixture 5)).1

/-! ## C7 — `topK` truncation and `minScore` filtering -/

/-- C7 counterexample: with `topK = 0` the loop pushes one result BEFORE
checking the bound, so `search` returns 1 result — more than `topK`. -/
theorem searchRank_topK_zero_counterexample :
    searchRank sqrtOneZero [1] [parentA] [childA] ⟨0, 1 / 2⟩ = .ok [resultA]
    ∧ ¬ (([resultA] : List RagSearchResult).length ≤ (0 : Nat)) :=
  ⟨searchRank_fixture 0, by decide⟩

/-- C7 (amended): whenever `search` succeeds, the `minScore` filter holds for
EVERY configuration — every returned result scores at least `minScore`,
`topK = 0` included — and for `topK ≥ 1` at most `topK` results are
returned. -/
theorem searchRank_topK_bound (sqrt : ℚ → ℚ) (q : List ℚ)
    (parents : List RagParentChunk) (children : List RagChildChunk)
    (cfg : RagSearchConfig) (results : List RagSearchResult)
    (h : searchRank sqrt q parents children cfg = .ok results) :
    (1 ≤ cfg.topK → results.length ≤ cfg.topK)
    ∧ ∀ r ∈ results, cfg.minScore ≤ r.score := by
  cases hm : computeMatches sqrt q cfg.minScore children with
  | error e =>
    rw [show searchRank sqrt q parents children cfg = .error e from by
      unfold searchRank; rw [hm]; rfl] at h
    exact Except.noConfusion h
  | ok ms =>
    have hres : results
        = dedupTake (buildParentMap parents) cfg.topK (ms.mergeSort scoreDesc) [] [] := by
      rw [searchRank_eq sqrt q parents children cfg ms hm] at h
      exact (Except.ok.inj h).symm
    subst hres
    constructor
    · intro htop
      exact dedupTake_length_le _ _ _ [] [] (by simpa using htop)
    · intro r hr
      rcases dedupTake_mem_src _ _ _ [] [] r hr with hracc | ⟨m, hmm, _, _, hscore⟩
      · cases hracc
      · rw [hscore]
        exact computeMatches_scores sqrt q cfg.minScore children ms hm m
          (List.mem_mergeSort.mp hmm)

/-- C7 witness: the fixture search with `topK = 5`, `minScore = 1/2`. -/
theorem searchRank_topK_bound_witness :
    (1 ≤ (5 : Nat) → ([resultA] : List RagSearchResult).length ≤ (5 : Nat))
    ∧ ∀ r ∈ ([resultA] : List RagSearchResult), (1 / 2 : ℚ) ≤ r.score :=
  searchRank_topK_bound sqrtOneZero [1] [parentA] [childA] ⟨5, 1 / 2⟩ [resultA]
    (searchRank_fixture 5)

end Aria
